import Mathlib

/-!
# Verification of the Encryption-Decryption envelope-encryption engine

A shallow embedding of the repository's envelope-encryption core
(`src/services/encryptionService.ts`, `src/services/kmsService.ts`,
`src/utils/encryptionUtils.ts`, `src/utils/createHash.ts`) together with
proofs of the testable properties stated in its specification.

Modelling conventions:
* JavaScript objects whose values are strings (the records flowing through
  `encryptObject` / `decryptObject`) are association lists `Record` with
  first-match lookup; assignment replaces the first binding or appends.
* `Buffer`s are `Bytes = List Nat` (each entry a byte value `< 256`).
* Thrown exceptions are `Except EncError`; the error classes of
  `src/types/errors.ts` are the constructors of `EncError`.  Errors thrown
  by external libraries (node:crypto, the Google Cloud clients) are the
  `external` constructor, which is what `instanceof EncryptionError` style
  checks in the source distinguish them by.
* `crypto.randomBytes` is modelled by an explicit random source `Rng`
  threaded through the calls that consume randomness.
* The external AEAD primitive (node:crypto `aes-256-gcm`) and the remote
  Google Cloud KMS / Secret Manager services are collaborators outside the
  repository; they are modelled by executable stand-ins (`gcmEncrypt` /
  `gcmDecrypt`, the `World` structure) that satisfy the interface contract
  the repository code relies on: authenticated encryption with tag
  verification on decrypt, and remote wrap/unwrap/secret storage.
-/

namespace EncDec

/-! ## Bytes, hex encoding (Buffer.toString('hex') / Buffer.from(hex, 'hex')) -/

/-- A `Buffer`: a list of byte values. -/
abbrev Bytes := List Nat

/-- Sum of the bytes of a buffer (used by the toy cipher stand-in). -/
def byteSum (bs : Bytes) : Nat := bs.foldl (· + ·) 0

/-- Lower-case hex digit for a value `< 16`. -/
def hexDigit (n : Nat) : Char :=
  if n < 10 then Char.ofNat (48 + n) else Char.ofNat (87 + n)

/-- The two hex digits of one byte. -/
def byteToHex (b : Nat) : List Char := [hexDigit (b / 16), hexDigit (b % 16)]

/-- `Buffer.toString('hex')`. -/
def hexOfBytes (bs : Bytes) : String := ⟨(bs.map byteToHex).flatten⟩

/-- Numeric value of one hex digit character, if any. -/
def hexDigitVal (c : Char) : Option Nat :=
  let n := c.toNat
  if 48 ≤ n ∧ n ≤ 57 then some (n - 48)
  else if 97 ≤ n ∧ n ≤ 102 then some (n - 87)
  else none

/-- Parse a list of hex digit characters two at a time into bytes. -/
def hexPairs : List Char → Option Bytes
  | [] => some []
  | _ :: [] => none
  | c1 :: c2 :: rest =>
    match hexDigitVal c1, hexDigitVal c2, hexPairs rest with
    | some v1, some v2, some bs => some ((16 * v1 + v2) :: bs)
    | _, _, _ => none

/-- `Buffer.from(s, 'hex')` (malformed hex is treated as a failed parse; in
the source every such parse happens inside a `try` whose `catch` is the
fallback path, so widening malformed input to failure is behaviour-neutral). -/
def bytesOfHex (s : String) : Option Bytes := hexPairs s.data

theorem hexDigitVal_hexDigit (n : Nat) (h : n < 16) :
    hexDigitVal (hexDigit n) = some n := by
  interval_cases n <;> rfl

theorem hexPairs_cons (b : Nat) (bs : Bytes) (h : b < 256)
    (ih : hexPairs ((bs.map byteToHex).flatten) = some bs) :
    hexPairs ((byteToHex b) ++ (bs.map byteToHex).flatten) = some (b :: bs) := by
  have h1 : b / 16 < 16 := by omega
  have h2 : b % 16 < 16 := by omega
  simp only [byteToHex, List.cons_append, List.nil_append, hexPairs,
    hexDigitVal_hexDigit _ h1, hexDigitVal_hexDigit _ h2, List.append_eq, ih]
  rw [Nat.div_add_mod b 16]

/-- Hex encoding round-trips on genuine byte lists. -/
theorem bytesOfHex_hexOfBytes (bs : Bytes) (h : ∀ b ∈ bs, b < 256) :
    bytesOfHex (hexOfBytes bs) = some bs := by
  induction bs with
  | nil => rfl
  | cons b bs ih =>
    have hb : b < 256 := h b (List.mem_cons_self b bs)
    have hrest := ih (fun x hx => h x (List.mem_cons_of_mem b hx))
    simpa [bytesOfHex, hexOfBytes] using
      hexPairs_cons b bs hb (by simpa [bytesOfHex, hexOfBytes] using hrest)

theorem hexOfBytes_ne_empty (bs : Bytes) (h : bs ≠ []) : hexOfBytes bs ≠ "" := by
  cases bs with
  | nil => exact absurd rfl h
  | cons b bs =>
    intro hc
    have : ((b :: bs).map byteToHex).flatten = ("" : String).data :=
      congrArg String.data hc
    simp [byteToHex] at this

/-! ## Plaintext/byte codec and the AEAD stand-in

The repository calls node:crypto's `aes-256-gcm` through
`createCipheriv`/`createDecipheriv`.  That primitive is an external
collaborator; it is modelled here by an executable stand-in satisfying the
contract the code relies on: a keyed, nonce-dependent, invertible stream
transformation plus an authentication tag that is a function of key, nonce
and ciphertext, verified on decryption (`decipher.final` throwing on a bad
tag is `gcmDecrypt` returning `none`). -/

/-- Fixed-width (3-byte, big-endian) serialisation of one character, the
stand-in's analogue of the utf8 encoding done by `cipher.update(v, 'utf8')`. -/
def charToBytes (c : Char) : Bytes :=
  [c.toNat / 65536, c.toNat / 256 % 256, c.toNat % 256]

/-- Serialise a plaintext string to bytes. -/
def stringToBytes (s : String) : Bytes := (s.data.map charToBytes).flatten

/-- Deserialise bytes back to characters; fails on byte groups that do not
form a valid character (the analogue of utf8 decoding failure). -/
def bytesToChars : Bytes → Option (List Char)
  | [] => some []
  | b2 :: b1 :: b0 :: rest =>
    let n := b2 * 65536 + b1 * 256 + b0
    if h : n.isValidChar then
      match bytesToChars rest with
      | some cs => some (Char.ofNatAux n h :: cs)
      | none => none
    else none
  | _ => none

/-- One keystream byte addition modulo 256 (encrypt direction). -/
def addByte (p k : Nat) : Nat := (p + k) % 256

/-- Inverse keystream byte operation (decrypt direction). -/
def subByte (c k : Nat) : Nat := (c + 256 - k % 256) % 256

theorem subByte_addByte (p k : Nat) (hp : p < 256) :
    subByte (addByte p k) k = p := by
  unfold subByte addByte
  omega

theorem addByte_lt (p k : Nat) : addByte p k < 256 := Nat.mod_lt _ (by omega)

/-- Keystream derived from key and nonce (toy stand-in for the AES-CTR
keystream inside GCM). -/
def keystream (dek iv : Bytes) (n : Nat) : Bytes :=
  (List.range n).map fun i => (byteSum dek * 131 + byteSum iv * 29 + i * 17 + 5) % 256

/-- Authentication tag over key, nonce and ciphertext (toy stand-in for the
GHASH-derived GCM tag): 16 bytes derived from a rolling hash. -/
def tagOf (dek iv ct : Bytes) : Bytes :=
  let roll := ct.foldl (fun a b => (a * 33 + b + 1) % 65521) 7
  (List.range 16).map fun i =>
    (byteSum dek * 7 + byteSum iv * 11 + roll + i * 3 + 1) % 256

/-- The AEAD encryption primitive: returns (ciphertext, authTag). -/
def gcmEncrypt (dek iv : Bytes) (value : String) : Bytes × Bytes :=
  let pt := stringToBytes value
  let ct := List.zipWith addByte pt (keystream dek iv pt.length)
  (ct, tagOf dek iv ct)

/-- The AEAD decryption primitive: verifies the tag, then inverts the
stream; `none` models `decipher.final` throwing. -/
def gcmDecrypt (dek iv ct tag : Bytes) : Option String :=
  if tag = tagOf dek iv ct then
    match bytesToChars (List.zipWith subByte ct (keystream dek iv ct.length)) with
    | some cs => some ⟨cs⟩
    | none => none
  else none

theorem keystream_length (dek iv : Bytes) (n : Nat) :
    (keystream dek iv n).length = n := by simp [keystream]

theorem zipWith_sub_add (ks : Bytes) (pt : Bytes) (hlen : pt.length ≤ ks.length)
    (hp : ∀ b ∈ pt, b < 256) :
    List.zipWith subByte (List.zipWith addByte pt ks) ks = pt := by
  induction pt generalizing ks with
  | nil => simp
  | cons p ps ih =>
    cases ks with
    | nil => simp at hlen
    | cons k kk =>
      simp only [List.zipWith_cons_cons]
      rw [subByte_addByte p k (hp p (List.mem_cons_self p ps)),
        ih kk (by simpa using hlen) (fun b hb => hp b (List.mem_cons_of_mem p hb))]

theorem charToBytes_lt (c : Char) : ∀ b ∈ charToBytes c, b < 256 := by
  have hv := c.valid
  have : c.toNat < 1114112 := by
    rcases hv with h | h
    · exact Nat.lt_trans h (by norm_num)
    · exact h.2
  intro b hb
  simp only [charToBytes, List.mem_cons, List.not_mem_nil, or_false] at hb
  rcases hb with rfl | rfl | rfl <;> omega

theorem stringToBytes_lt (s : String) : ∀ b ∈ stringToBytes s, b < 256 := by
  intro b hb
  simp only [stringToBytes, List.mem_flatten, List.mem_map] at hb
  obtain ⟨l, ⟨c, _, rfl⟩, hbl⟩ := hb
  exact charToBytes_lt c b hbl

theorem bytesToChars_charToBytes (cs : List Char) :
    bytesToChars ((cs.map charToBytes).flatten) = some cs := by
  induction cs with
  | nil => rfl
  | cons c rest ih =>
    have hv : (c.toNat / 65536 * 65536 + c.toNat / 256 % 256 * 256 + c.toNat % 256)
        = c.toNat := by omega
    have hval : Nat.isValidChar c.toNat := c.valid
    simp only [List.map_cons, List.flatten_cons, charToBytes, List.cons_append,
      List.nil_append, bytesToChars, hv, ih]
    rw [dif_pos hval]
    have hofn : Char.ofNatAux c.toNat hval = c := by
      have h2 := Char.ofNat_toNat c
      unfold Char.ofNat at h2
      rwa [dif_pos hval] at h2
    rw [hofn]
    simp only [List.append_eq, List.nil_append, ih]

/-- The AEAD contract the repository relies on: decrypting with the same
key and nonce recovers the plaintext. -/
theorem gcmDecrypt_gcmEncrypt (dek iv : Bytes) (v : String) :
    gcmDecrypt dek iv (gcmEncrypt dek iv v).1 (gcmEncrypt dek iv v).2 = some v := by
  unfold gcmEncrypt gcmDecrypt
  simp only [if_pos rfl]
  have hlen : (List.zipWith addByte (stringToBytes v)
      (keystream dek iv (stringToBytes v).length)).length = (stringToBytes v).length := by
    simp [List.length_zipWith, keystream_length]
  rw [hlen, zipWith_sub_add _ _ (by simp [keystream_length]) (stringToBytes_lt v)]
  rw [show stringToBytes v = ((v.data.map charToBytes).flatten) from rfl,
    bytesToChars_charToBytes]
  simp

theorem mem_zipWith_addByte_lt (a k : Bytes) : ∀ b ∈ List.zipWith addByte a k, b < 256 := by
  induction a generalizing k with
  | nil => simp
  | cons x xs ih =>
    cases k with
    | nil => simp
    | cons y ys =>
      intro b hb
      simp only [List.zipWith_cons_cons, List.mem_cons] at hb
      rcases hb with rfl | hb
      · exact addByte_lt x y
      · exact ih ys b hb

theorem gcmEncrypt_ct_lt (dek iv : Bytes) (v : String) :
    ∀ b ∈ (gcmEncrypt dek iv v).1, b < 256 := by
  intro b hb
  simp only [gcmEncrypt] at hb
  exact mem_zipWith_addByte_lt _ _ b hb

theorem tagOf_lt (dek iv ct : Bytes) : ∀ b ∈ tagOf dek iv ct, b < 256 := by
  intro b hb
  simp only [tagOf, List.mem_map] at hb
  obtain ⟨i, _, rfl⟩ := hb
  exact Nat.mod_lt _ (by omega)

theorem gcmEncrypt_ct_ne_nil (dek iv : Bytes) (v : String) (hv : v ≠ "") :
    (gcmEncrypt dek iv v).1 ≠ [] := by
  intro hc
  apply hv
  have hd : v.data ≠ [] := fun h => hv (by cases v; simp_all)
  cases hdata : v.data with
  | nil => exact absurd hdata hd
  | cons c cs =>
    exfalso
    have : (List.zipWith addByte (stringToBytes v)
        (keystream dek iv (stringToBytes v).length)).length = (stringToBytes v).length := by
      simp [List.length_zipWith, keystream_length]
    rw [gcmEncrypt] at hc
    simp only at hc
    rw [hc] at this
    simp only [List.length_nil] at this
    have : stringToBytes v = [] := List.eq_nil_of_length_eq_zero this.symm
    rw [stringToBytes, hdata] at this
    simp [charToBytes] at this

/-! ## JS records, truthiness, and the random source -/

/-- A JS object with string-valued fields: an association list, first
binding wins on lookup. -/
abbrev Record := List (String × String)

/-- `data[k]`: first binding for `k`, if any. -/
def getField : Record → String → Option String
  | [], _ => none
  | (k', v) :: rest, k => if k' == k then some v else getField rest k

/-- `data[k] = v`: replace the first binding for `k`, or append one. -/
def setField (r : Record) (k v : String) : Record :=
  match r with
  | [] => [(k, v)]
  | (k', v') :: rest => if k' == k then (k, v) :: rest else (k', v') :: setField rest k v

/-- `delete data[k]`. -/
def delField (r : Record) (k : String) : Record :=
  r.filter (fun p => !(p.1 == k))

/-- JS truthiness of a possibly-absent string: absent, `undefined` and the
empty string are falsy. -/
def truthy : Option String → Bool
  | none => false
  | some s => !(s == "")

/-- `x || null` on a possibly-absent string. -/
def jsOr (o : Option String) : Option String := if truthy o then o else none

/-- `Object.assign(target, source)` for string-valued records. -/
def assignAll (r : Record) (src : Record) : Record :=
  src.foldl (fun a p => setField a p.1 p.2) r

/-- Deterministic random source standing in for `crypto.randomBytes`:
an infinite byte stream plus a read position. -/
structure Rng where
  stream : Nat → Nat
  pos : Nat

/-- `crypto.randomBytes(n)`: the next `n` bytes of the stream. -/
def randomBytes (n : Nat) (g : Rng) : Bytes × Rng :=
  ((List.range n).map (fun i => g.stream (g.pos + i) % 256),
   ⟨g.stream, g.pos + n⟩)

theorem randomBytes_length (n : Nat) (g : Rng) : (randomBytes n g).1.length = n := by
  simp [randomBytes]

theorem randomBytes_lt (n : Nat) (g : Rng) : ∀ b ∈ (randomBytes n g).1, b < 256 := by
  intro b hb
  simp only [randomBytes, List.mem_map] at hb
  obtain ⟨i, _, rfl⟩ := hb
  exact Nat.mod_lt _ (by omega)

theorem getField_setField_self (r : Record) (k v : String) :
    getField (setField r k v) k = some v := by
  induction r with
  | nil => simp [setField, getField]
  | cons p rest ih =>
    obtain ⟨k', v'⟩ := p
    by_cases h : k' = k
    · simp [setField, getField, h]
    · simp [setField, getField, h, ih]

theorem getField_setField_other (r : Record) (k k' v : String) (h : k' ≠ k) :
    getField (setField r k v) k' = getField r k' := by
  induction r with
  | nil => simp [setField, getField, Ne.symm h]
  | cons p rest ih =>
    obtain ⟨k0, v0⟩ := p
    by_cases hp : k0 = k
    · simp [setField, getField, hp, Ne.symm h]
    · by_cases hp' : k0 = k'
      · simp [setField, getField, hp, hp', h]
      · simp [setField, getField, hp, hp', ih]

theorem getField_delField_other (r : Record) (k k' : String) (h : k' ≠ k) :
    getField (delField r k) k' = getField r k' := by
  induction r with
  | nil => rfl
  | cons p rest ih =>
    obtain ⟨k0, v0⟩ := p
    by_cases hp : k0 = k
    · have hne : k0 ≠ k' := by rw [hp]; exact Ne.symm h
      simp [delField, List.filter, getField, hp, hne, Ne.symm h, ← ih]
    · by_cases hp' : k0 = k'
      · simp only [delField, List.filter]
        rw [show (!(k0 == k)) = true by simp [hp]]
        simp [getField, hp']
      · simp only [delField, List.filter]
        rw [show (!(k0 == k)) = true by simp [hp]]
        simp only [getField]
        rw [show (k0 == k') = false by simp [hp']]
        simpa [delField] using ih

/-! ## Errors (src/types/errors.ts) -/

/-- The error classes of `src/types/errors.ts`, plus `foreign` for errors
raised by external libraries (node:crypto, Google Cloud clients), which the
source distinguishes from its own classes via `instanceof` checks. -/
inductive EncError where
  | configuration (code : String)
  | encryption (code : String)
  | validation (code : String)
  | foreign (code : String)
deriving DecidableEq, Repr

/- The `ErrorCodes` constant of `src/types/errors.ts` (codes used by the
embedded functions). -/
namespace ErrorCodes

def MISSING_CONFIG : String := "CONFIGURATION_MISSING_CONFIG"

def FIELD_ENCRYPTION_ERROR : String := "ENCRYPTION_FIELD_ENCRYPTION_ERROR"

def DEK_DECRYPTION_ERROR : String := "ENCRYPTION_DEK_DECRYPTION_ERROR"

def SECRET_RETRIEVAL_ERROR : String := "ENCRYPTION_SECRET_RETRIEVAL_ERROR"

def KEY_DETAILS_ERROR : String := "ENCRYPTION_KEY_DETAILS_ERROR"

def CREATION_ERROR : String := "ENCRYPTION_CREATION_ERROR"

def MISSING_REQUIRED_FIELD : String := "VALIDATION_MISSING_REQUIRED_FIELD"

def INVALID_DEK : String := "VALIDATION_INVALID_DEK"

end ErrorCodes

/-! ## Configuration and key-metadata types (src/types/encryption.ts) -/

/-- One entry of a model's `Encrypt`/`Decrypt` field list. -/
structure FieldCfg where
  key : String
  shouldHash : Bool
deriving DecidableEq, Repr

/-- Per-model encryption configuration. -/
structure ModelCfg where
  Encrypt : List FieldCfg
  Decrypt : List FieldCfg
deriving DecidableEq, Repr

/-- `EncryptionConfig.encryptedFields`: model name to configuration. -/
abbrev EncryptionConfig := List (String × ModelCfg)

/-- `this.config.encryptedFields[modelName]`. -/
def configLookup : EncryptionConfig → String → Option ModelCfg
  | [], _ => none
  | (m, mc) :: rest, name => if m == name then some mc else configLookup rest name

/-- `EntityKeyDetails`: loosely-typed key details as consumed by
`encryptObject`/`decryptObject`/`resolveDEKFromEntityKeyDetails`. -/
structure EntityKeyDetails where
  locationId : Option String
  keyRingId : Option String
  keyId : Option String
  secretId : Option String
  encryptedDEK : Option Bytes
  keyVersion : Option String
deriving DecidableEq, Repr

/-- `EntityKeyDetailsResult` as consumed (`entityKeyDetailsResult?.keyDetails`). -/
structure EntityKeyDetailsResult where
  keyDetails : Option EntityKeyDetails
deriving DecidableEq, Repr

/-- `KeyMetadata` as returned by the service (the object literals built in
`encryptObject` and `resolveDEKFromEntityKeyDetails` carry all six fields). -/
structure KeyMetadata where
  locationId : Option String
  keyRingId : Option String
  keyId : Option String
  secretId : Option String
  encryptedDEK : Option Bytes
  keyVersion : Option String
deriving DecidableEq, Repr

/-- The missing-field check repeated at `encryptObject`,
`decryptObject` and `resolveDEKFromEntityKeyDetails`:
`!locationId || !keyRingId || !keyId || !secretId || !keyVersion`. -/
def keyDetailsComplete (kd : EntityKeyDetails) : Bool :=
  truthy kd.locationId && truthy kd.keyRingId && truthy kd.keyId &&
    truthy kd.secretId && truthy kd.keyVersion

/-! ## Remote collaborators (Google Cloud KMS / Secret Manager)

The remote services are external; their responses are supplied by a
`World`.  A `none` response models the remote client throwing. -/

/-- Result shape of `kmsService.encryptDEK` as destructured by
`encryptObject` (`{encryptedDEK, locationId, keyRingId, keyId, keyVersion}`). -/
structure KmsWrapResult where
  encryptedDEK : Bytes
  locationId : String
  keyRingId : String
  keyId : String
  keyVersion : String
deriving DecidableEq, Repr

/-- `SecretData` stored by `secretManagerService.createSecret`. -/
structure SecretData where
  encryptedDEK : Bytes
  locationId : String
  keyRingId : String
  keyId : String
  keyVersion : String
deriving DecidableEq, Repr

/-- `SecretVersion` returned by `secretManagerService.createSecret`. -/
structure SecretVersion where
  secretName : String
  versionName : String
deriving DecidableEq, Repr

/-- Responses of the external services for one execution. -/
structure World where
  /-- Outcome of the remote key-ring/key provisioning plus wrap performed by
  `kmsService.encryptDEK` (`createKeyRingAndKey`). -/
  kmsWrap : Bytes → String → Option KmsWrapResult
  /-- Plaintext returned by the remote `client.decrypt` for a given resource
  name and ciphertext. -/
  kmsDecrypt : String → Bytes → Option Bytes
  /-- Payload returned by `secretManagerService.getSecret`. -/
  getSecret : String → Option Bytes
  /-- Outcome of `secretManagerService.createSecret`. -/
  createSecret : String → SecretData → Option SecretVersion
  /-- `GOOGLE_CLOUD_PROJECT`. -/
  projectId : String

/-- `client.cryptoKeyVersionPath(...)`: the KMS resource name built from the
key metadata. -/
def cryptoKeyVersionPath (projectId locationId keyRingId keyId keyVersion : String) : String :=
  "projects/" ++ projectId ++ "/locations/" ++ locationId ++ "/keyRings/" ++ keyRingId ++
    "/cryptoKeys/" ++ keyId ++ "/cryptoKeyVersions/" ++ keyVersion

/-- `s.split('/')` on the character list. -/
def splitOnSlash : List Char → List (List Char)
  | [] => [[]]
  | c :: rest =>
    match splitOnSlash rest with
    | [] => [[]]
    | g :: gs => if c = '/' then [] :: g :: gs else (c :: g) :: gs

/-- `kmsPath.split('/')`. -/
def jsSplitSlash (s : String) : List String := (splitOnSlash s.data).map fun cs => ⟨cs⟩

/-- `segments.join('/')`. -/
def jsJoinSlash (ss : List String) : String := String.intercalate "/" ss

/-- `KMSService.decryptDEK` of `src/services/kmsService.ts` (lines 182-224):
validates presence of the encrypted DEK and the kms path, truncates the path
to its first 8 segments, remote-decrypts, and enforces the 32-byte DEK
length, throwing `ValidationError(INVALID_DEK)` otherwise.  A remote client
failure is caught and wrapped into `EncryptionError(DEK_DECRYPTION_ERROR)`. -/
def kmsDecryptDEK (w : World) (encryptedDEKData : Option Bytes) (kmsPath : Option String) :
    Except EncError Bytes :=
  match encryptedDEKData with
  | none => .error (.validation ErrorCodes.MISSING_REQUIRED_FIELD)
  | some ct =>
    match kmsPath with
    | none => .error (.validation ErrorCodes.MISSING_REQUIRED_FIELD)
    | some kp =>
      if kp = "" then .error (.validation ErrorCodes.MISSING_REQUIRED_FIELD)
      else
        let keyMetadata := jsJoinSlash ((jsSplitSlash kp).take 8)
        match w.kmsDecrypt keyMetadata ct with
        | none => .error (.encryption ErrorCodes.DEK_DECRYPTION_ERROR)
        | some dek =>
          if dek.length ≠ 32 then .error (.validation ErrorCodes.INVALID_DEK)
          else .ok dek

/-- `kmsService.decryptDEK` in the shape consumed by
`EncryptionService.resolveDEKFromEntityKeyDetails` (the `keyMetadata`-taking
variant of the service, unnamed part_013): builds the cryptoKeyVersion
resource name, remote-decrypts and enforces the 32-byte DEK length; every
failure surfaces as a generic thrown `Error` (`none` here), which the caller
catches. -/
def kmsDecryptDEKMeta (w : World) (encryptedDEKData : Bytes)
    (locationId keyRingId keyId keyVersion : String) : Option Bytes :=
  match w.kmsDecrypt (cryptoKeyVersionPath w.projectId locationId keyRingId keyId keyVersion)
      encryptedDEKData with
  | none => none
  | some dek => if dek.length ≠ 32 then none else some dek

/-- `kmsService.encryptDEK`: validates the DEK length then provisions and
wraps remotely (`createKeyRingAndKey`); any failure is a throw, which
`encryptObject` catches and wraps into `CREATION_ERROR`. -/
def kmsEncryptDEK (w : World) (dek : Bytes) (clientName : String) : Option KmsWrapResult :=
  if dek.length ≠ 32 then none else w.kmsWrap dek clientName

/-! ## createHash (src/utils/createHash.ts) -/

/-- Model of the external sha256 hex digest from node:crypto
(`crypto.createHash('sha256').update(data).digest('hex')`): an executable
deterministic stand-in producing a 64-hex-character digest. -/
def sha256Hex (s : String) : String :=
  let roll := s.data.foldl (fun a c => (a * 33 + c.toNat + 1) % 1000003) 7
  hexOfBytes ((List.range 32).map fun i => (roll + i * 41) % 256)

/-- `createHash` from `src/utils/createHash.ts`. -/
def createHash (data : String) : String := sha256Hex data

/-! ## Field cipher wrappers (EncryptionService.encryptField / decryptField)

`EncryptionService.decryptField` and the standalone `decryptField` of
`src/utils/encryptionUtils.ts` have identical bodies; one definition embeds
both. -/

/-- `EncryptionService.encryptField` (encryptionService.ts lines 49-65):
empty/absent value short-circuits to `null` before any cipher call; then a
fresh 16-byte IV is drawn and the AEAD applied (`createCipheriv` throws on a
key that is not 32 bytes — a foreign error, since the guard clause has
already passed).  Returns the `_encrypted`/`_iv`/`_auth_tag` hex triple. -/
def encryptField (fieldName : String) (value : Option String) (dek : Bytes) (g : Rng) :
    Except EncError (Option Record) × Rng :=
  if ¬ truthy value then (.ok none, g)
  else if dek.length ≠ 32 then (.error (.foreign "ERR_CRYPTO_INVALID_KEYLEN"), g)
  else
    let (iv, g') := randomBytes 16 g
    let (ct, tag) := gcmEncrypt dek iv (value.getD "")
    (.ok (some [(fieldName ++ "_encrypted", hexOfBytes ct),
                (fieldName ++ "_iv", hexOfBytes iv),
                (fieldName ++ "_auth_tag", hexOfBytes tag)]), g')

/-- The standalone `encryptField` of `src/utils/encryptionUtils.ts`
(lines 32-53): identical except that the ciphertext is additionally stored
under the bare field name. -/
def utilsEncryptField (fieldName : String) (value : Option String) (dek : Bytes) (g : Rng) :
    Except EncError (Option Record) × Rng :=
  if ¬ truthy value then (.ok none, g)
  else if dek.length ≠ 32 then (.error (.foreign "ERR_CRYPTO_INVALID_KEYLEN"), g)
  else
    let (iv, g') := randomBytes 16 g
    let (ct, tag) := gcmEncrypt dek iv (value.getD "")
    (.ok (some [(fieldName, hexOfBytes ct),
                (fieldName ++ "_encrypted", hexOfBytes ct),
                (fieldName ++ "_iv", hexOfBytes iv),
                (fieldName ++ "_auth_tag", hexOfBytes tag)]), g')

/-- The body of `decryptField`'s `try` block: parse IV, tag and ciphertext
from their hex fields and run the AEAD.  `none` is any throw inside the
`try` (missing fields, `createDecipheriv` rejecting a wrong-length key, or
`decipher.final` failing tag verification). -/
def decryptAttempt (fieldName : String) (data : Record) (dek : Bytes) : Option String :=
  if dek.length ≠ 32 then none
  else
    match getField data (fieldName ++ "_iv"), getField data (fieldName ++ "_auth_tag") with
    | some ivHex, some tagHex =>
      match bytesOfHex ivHex, bytesOfHex tagHex,
          bytesOfHex ((getField data (fieldName ++ "_encrypted")).getD "") with
      | some iv, some tag, some ct => gcmDecrypt dek iv ct tag
      | _, _, _ => none
    | _, _ => none

/-- `EncryptionService.decryptField` (encryptionService.ts lines 74-95) and
the identical standalone `decryptField` (encryptionUtils.ts lines 62-87):
absent/empty `<field>_encrypted` returns `null`; any error inside the `try`
is caught and the function falls back to `data[fieldName] || null`. -/
def decryptField (fieldName : String) (data : Record) (dek : Bytes) : Option String :=
  if ¬ truthy (getField data (fieldName ++ "_encrypted")) then none
  else
    match decryptAttempt fieldName data dek with
    | some plain => some plain
    | none => jsOr (getField data fieldName)

/-! ## Object-level orchestrator (EncryptionService) -/

/-- The loop of `handleFieldEncryption` (encryptionService.ts lines 220-238):
for each configured field with a truthy value, encrypt it (any failure is
wrapped into `EncryptionError(FIELD_ENCRYPTION_ERROR)` and aborts), add the
`_hash` sibling when `shouldHash`, and `Object.assign` the hex triple. -/
def encryptFieldsLoop (dek : Bytes) : List FieldCfg → Record → Record → Rng →
    Except EncError Record × Rng
  | [], _, acc, g => (.ok acc, g)
  | f :: rest, data, acc, g =>
    if truthy (getField data f.key) then
      match encryptField f.key (getField data f.key) dek g with
      | (.error _, g') => (.error (.encryption ErrorCodes.FIELD_ENCRYPTION_ERROR), g')
      | (.ok fd, g') =>
        let acc1 := if f.shouldHash
          then setField acc (f.key ++ "_hash") (createHash ((getField data f.key).getD ""))
          else acc
        let acc2 := match fd with
          | some fields => assignAll acc1 fields
          | none => acc1
        encryptFieldsLoop dek rest data acc2 g'
    else encryptFieldsLoop dek rest data acc g

/-- `EncryptionService.handleFieldEncryption` (lines 212-250): copies the
record and runs the per-field loop. -/
def handleFieldEncryption (modelConfig : ModelCfg) (data : Record) (dek : Bytes) (g : Rng) :
    Except EncError Record × Rng :=
  encryptFieldsLoop dek modelConfig.Encrypt data data g

/-- Remote calls performed during one DEK resolution. -/
structure CallLog where
  getSecretCalls : Nat
  kmsDecryptCalls : Nat
deriving DecidableEq, Repr

/-- The tail of `resolveDEKFromEntityKeyDetails` once the encrypted DEK
bytes are at hand: unwrap remotely and rebuild the metadata bundle.  An
unwrap failure is wrapped into `EncryptionError(DEK_DECRYPTION_ERROR)`. -/
def resolveAfterFetch (w : World) (kd : EntityKeyDetails) (enc : Bytes) :
    Except EncError (Bytes × KeyMetadata) :=
  match kmsDecryptDEKMeta w enc (kd.locationId.getD "") (kd.keyRingId.getD "")
      (kd.keyId.getD "") (kd.keyVersion.getD "") with
  | none => .error (.encryption ErrorCodes.DEK_DECRYPTION_ERROR)
  | some dek =>
    .ok (dek,
      { locationId := kd.locationId, keyRingId := kd.keyRingId, keyId := kd.keyId,
        secretId := kd.secretId, keyVersion := kd.keyVersion, encryptedDEK := some enc })

/-- `EncryptionService.resolveDEKFromEntityKeyDetails` (lines 259-320),
instrumented with the count of remote Secret Manager / KMS calls it makes:
validates the key details; uses the supplied `encryptedDEK` when present
(the cached path), otherwise fetches it from the Secret Manager
(`SECRET_RETRIEVAL_ERROR` on failure); then always unwraps via the KMS. -/
def resolveDEKFromEntityKeyDetails (w : World) (kd : EntityKeyDetails) :
    Except EncError (Bytes × KeyMetadata) × CallLog :=
  if keyDetailsComplete kd then
    match kd.encryptedDEK with
    | some enc => (resolveAfterFetch w kd enc, ⟨0, 1⟩)
    | none =>
      match w.getSecret (kd.secretId.getD "") with
      | none => (.error (.encryption ErrorCodes.SECRET_RETRIEVAL_ERROR), ⟨1, 0⟩)
      | some enc => (resolveAfterFetch w kd enc, ⟨1, 1⟩)
  else (.error (.validation ErrorCodes.MISSING_REQUIRED_FIELD), ⟨0, 0⟩)

/-- `entityKeyDetailsResult?.keyDetails`. -/
def keyDetailsOf : Option EntityKeyDetailsResult → Option EntityKeyDetails
  | none => none
  | some r => r.keyDetails

/-- Result of `encryptObject`. -/
structure EncryptedObjectResult where
  encryptedData : Record
  keyMetadata : KeyMetadata
deriving DecidableEq, Repr

/-- `EncryptionService.encryptObject` (lines 105-202): validates inputs and
configuration; with key details present, resolves the DEK and encrypts
(every failure wrapped into `EncryptionError(KEY_DETAILS_ERROR)`); otherwise
generates a fresh DEK, encrypts, provisions/wraps via the KMS and persists
the wrapped DEK under `secret-<clientName>` (failures wrapped into
`EncryptionError(CREATION_ERROR)`). -/
def encryptObject (w : World) (cfg : EncryptionConfig) (g : Rng) (modelName : Option String)
    (data : Option Record) (clientName : String) (ekdr : Option EntityKeyDetailsResult) :
    Except EncError EncryptedObjectResult × Rng :=
  if ¬ truthy modelName then (.error (.validation ErrorCodes.MISSING_REQUIRED_FIELD), g)
  else
    match data with
    | none => (.error (.validation ErrorCodes.MISSING_REQUIRED_FIELD), g)
    | some data =>
      match configLookup cfg (modelName.getD "") with
      | none => (.error (.configuration ErrorCodes.MISSING_CONFIG), g)
      | some modelConfig =>
        let secretId := "secret-" ++ clientName
        match keyDetailsOf ekdr with
        | some keyDetails =>
          if keyDetailsComplete keyDetails then
            match resolveDEKFromEntityKeyDetails w keyDetails with
            | (.error _, _) => (.error (.encryption ErrorCodes.KEY_DETAILS_ERROR), g)
            | (.ok (dek, metadata), _) =>
              match handleFieldEncryption modelConfig data dek g with
              | (.error _, g') => (.error (.encryption ErrorCodes.KEY_DETAILS_ERROR), g')
              | (.ok encryptedData, g') => (.ok ⟨encryptedData, metadata⟩, g')
          else (.error (.encryption ErrorCodes.KEY_DETAILS_ERROR), g)
        | none =>
          let (dek, g1) := randomBytes 32 g
          match handleFieldEncryption modelConfig data dek g1 with
          | (.error _, g2) => (.error (.encryption ErrorCodes.CREATION_ERROR), g2)
          | (.ok encryptedData, g2) =>
            match kmsEncryptDEK w dek clientName with
            | none => (.error (.encryption ErrorCodes.CREATION_ERROR), g2)
            | some kr =>
              match w.createSecret secretId
                  ⟨kr.encryptedDEK, kr.locationId, kr.keyRingId, kr.keyId, kr.keyVersion⟩ with
              | none => (.error (.encryption ErrorCodes.CREATION_ERROR), g2)
              | some _ =>
                (.ok ⟨encryptedData,
                  { locationId := some kr.locationId, keyRingId := some kr.keyRingId,
                    keyId := some kr.keyId, secretId := some secretId,
                    encryptedDEK := some kr.encryptedDEK,
                    keyVersion := some kr.keyVersion }⟩, g2)

/-- The per-field loop of `decryptObject` (lines 380-399): for each
configured field with a present `_encrypted` value, decrypt; a non-null
result replaces the `_encrypted` field and deletes the `_iv`/`_auth_tag`
side fields.  `decryptField` never throws (its own `catch` returns the
fallback), so the `catch` branch inside this loop is unreachable. -/
def decryptFieldsLoop (dek : Bytes) (data : Record) : List FieldCfg → Record → Record
  | [], acc => acc
  | f :: rest, acc =>
    if truthy (getField data (f.key ++ "_encrypted")) then
      match decryptField f.key data dek with
      | some v =>
        decryptFieldsLoop dek data rest
          (delField (delField (setField acc (f.key ++ "_encrypted") v) (f.key ++ "_iv"))
            (f.key ++ "_auth_tag"))
      | none => decryptFieldsLoop dek data rest acc
    else decryptFieldsLoop dek data rest acc

/-- `EncryptionService.decryptObject` (lines 330-423): validates inputs and
configuration; with no key details it returns the record unchanged and no
encrypted DEK; otherwise validates the key details (`ValidationError` is
rethrown), resolves the DEK (resolution errors are rethrown) and runs the
per-field loop, returning the resolved wrapped-DEK bytes. -/
def decryptObject (w : World) (cfg : EncryptionConfig) (modelName : Option String)
    (data : Option Record) (ekdr : Option EntityKeyDetailsResult) :
    Except EncError (Record × Option Bytes) :=
  if ¬ truthy modelName then .error (.validation ErrorCodes.MISSING_REQUIRED_FIELD)
  else
    match data with
    | none => .error (.validation ErrorCodes.MISSING_REQUIRED_FIELD)
    | some data =>
      match configLookup cfg (modelName.getD "") with
      | none => .error (.configuration ErrorCodes.MISSING_CONFIG)
      | some modelConfig =>
        match keyDetailsOf ekdr with
        | none => .ok (data, none)
        | some keyDetails =>
          if keyDetailsComplete keyDetails then
            match resolveDEKFromEntityKeyDetails w keyDetails with
            | (.error e, _) => .error e
            | (.ok (dek, metadata), _) =>
              .ok (decryptFieldsLoop dek data modelConfig.Decrypt data, metadata.encryptedDEK)
          else .error (.validation ErrorCodes.MISSING_REQUIRED_FIELD)

/-! ## Concrete scenario instances -/

/-- Modelled from the spec: the encryption configuration file
(`src/config/encryption.json`) is not part of the shipped sources; per the
specification's end-to-end scenario, the `User` model is configured to
encrypt `email` (with a search hash) and `password` (without one), and to
decrypt both. -/
def userModelCfg : ModelCfg :=
  { Encrypt := [⟨"email", true⟩, ⟨"password", false⟩],
    Decrypt := [⟨"email", false⟩, ⟨"password", false⟩] }

/-- Modelled from the spec: the configuration map holding `userModelCfg`
under the `User` model name. -/
def userConfig : EncryptionConfig := [("User", userModelCfg)]

/-- The record of the specification's end-to-end scenario. -/
def aliceRecord : Record := [("username", "alice"), ("email", "a@x.com"), ("password", "p")]

/-- A deterministic world: the remote wrap adds 101 to each DEK byte, the
remote decrypt subtracts it again (so unwrap inverts wrap on byte lists),
secret creation succeeds, and the secret store holds nothing. -/
def W0 : World :=
  { kmsWrap := fun dek _ =>
      some ⟨dek.map (fun b => (b + 101) % 256), "global", "kr-alice", "key-alice", "1"⟩,
    kmsDecrypt := fun _ ct => some (ct.map (fun b => (b + 155) % 256)),
    getSecret := fun _ => none,
    createSecret := fun _ _ => some ⟨"sn", "vn"⟩,
    projectId := "proj" }

/-- A concrete random stream. -/
def G0 : Rng := ⟨fun n => (n * 37 + 11) % 256, 0⟩

/-- View a `KeyMetadata` bundle as the `EntityKeyDetails` fed back into
`decryptObject` (the scenario persists the metadata and supplies it as the
entity's key details). -/
def metadataAsDetails (km : KeyMetadata) : EntityKeyDetails :=
  ⟨km.locationId, km.keyRingId, km.keyId, km.secretId, km.encryptedDEK, km.keyVersion⟩

/-! ## Helper lemmas about field names and record updates -/

theorem append_ne_append (a : String) {s t : String} (h : s ≠ t) : a ++ s ≠ a ++ t := by
  intro hc
  have hd : a.data ++ s.data = a.data ++ t.data := by
    simpa [String.data_append] using congrArg String.data hc
  exact h (String.ext (List.append_cancel_left hd))

theorem getField_assignAll_notMem (src : Record) (r : Record) (k : String)
    (h : ∀ p ∈ src, p.1 ≠ k) :
    getField (assignAll r src) k = getField r k := by
  induction src generalizing r with
  | nil => rfl
  | cons p rest ih =>
    have hp : p.1 ≠ k := h p (List.mem_cons_self p rest)
    calc getField (assignAll (setField r p.1 p.2) rest) k
        = getField (setField r p.1 p.2) k :=
          ih _ (fun q hq => h q (List.mem_cons_of_mem p hq))
      _ = getField r k := getField_setField_other r p.1 k p.2 (Ne.symm hp)

/-- The three hex fields produced by one `encryptField` call. -/
def encBundle (fieldName v : String) (dek : Bytes) (g : Rng) : Record :=
  [(fieldName ++ "_encrypted", hexOfBytes (gcmEncrypt dek (randomBytes 16 g).1 v).1),
   (fieldName ++ "_iv", hexOfBytes (randomBytes 16 g).1),
   (fieldName ++ "_auth_tag", hexOfBytes (gcmEncrypt dek (randomBytes 16 g).1 v).2)]

theorem encryptField_ok (fieldName v : String) (dek : Bytes) (g : Rng)
    (hv : v ≠ "") (hdek : dek.length = 32) :
    encryptField fieldName (some v) dek g =
      (.ok (some (encBundle fieldName v dek g)), (randomBytes 16 g).2) := by
  have ht : truthy (some v) = true := by simpa [truthy] using hv
  simp [encryptField, ht, hdek, encBundle]

theorem getField_encBundle_enc (fieldName v : String) (dek : Bytes) (g : Rng) :
    getField (encBundle fieldName v dek g) (fieldName ++ "_encrypted") =
      some (hexOfBytes (gcmEncrypt dek (randomBytes 16 g).1 v).1) := by
  simp [encBundle, getField]

theorem getField_encBundle_iv (fieldName v : String) (dek : Bytes) (g : Rng) :
    getField (encBundle fieldName v dek g) (fieldName ++ "_iv") =
      some (hexOfBytes (randomBytes 16 g).1) := by
  have h1 : fieldName ++ "_encrypted" ≠ fieldName ++ "_iv" :=
    append_ne_append fieldName (by decide)
  simp [encBundle, getField, h1]

theorem getField_encBundle_tag (fieldName v : String) (dek : Bytes) (g : Rng) :
    getField (encBundle fieldName v dek g) (fieldName ++ "_auth_tag") =
      some (hexOfBytes (gcmEncrypt dek (randomBytes 16 g).1 v).2) := by
  have h1 : fieldName ++ "_encrypted" ≠ fieldName ++ "_auth_tag" :=
    append_ne_append fieldName (by decide)
  have h2 : fieldName ++ "_iv" ≠ fieldName ++ "_auth_tag" :=
    append_ne_append fieldName (by decide)
  simp [encBundle, getField, h1, h2]

/-- Decrypting the bundle just produced by `encryptField` authenticates and
recovers the plaintext. -/
theorem decryptField_encBundle (fieldName v : String) (dek : Bytes) (g : Rng)
    (hv : v ≠ "") (hdek : dek.length = 32) :
    decryptField fieldName (encBundle fieldName v dek g) dek = some v := by
  have hctne : (gcmEncrypt dek (randomBytes 16 g).1 v).1 ≠ [] :=
    gcmEncrypt_ct_ne_nil dek (randomBytes 16 g).1 v hv
  have hhex : hexOfBytes (gcmEncrypt dek (randomBytes 16 g).1 v).1 ≠ "" :=
    hexOfBytes_ne_empty _ hctne
  have htr : truthy (getField (encBundle fieldName v dek g) (fieldName ++ "_encrypted")) = true := by
    rw [getField_encBundle_enc]
    simpa [truthy] using hhex
  have htag : (gcmEncrypt dek (randomBytes 16 g).1 v).2 =
      tagOf dek (randomBytes 16 g).1 (gcmEncrypt dek (randomBytes 16 g).1 v).1 := rfl
  have hatt : decryptAttempt fieldName (encBundle fieldName v dek g) dek = some v := by
    rw [decryptAttempt, if_neg (by omega)]
    rw [getField_encBundle_iv, getField_encBundle_tag, getField_encBundle_enc]
    simp only [Option.getD_some]
    rw [bytesOfHex_hexOfBytes _ (randomBytes_lt 16 g),
      bytesOfHex_hexOfBytes _ (htag ▸ tagOf_lt dek (randomBytes 16 g).1
        (gcmEncrypt dek (randomBytes 16 g).1 v).1),
      bytesOfHex_hexOfBytes _ (gcmEncrypt_ct_lt dek (randomBytes 16 g).1 v)]
    exact gcmDecrypt_gcmEncrypt dek (randomBytes 16 g).1 v
  rw [decryptField, if_neg (by simp [htr]), hatt]

/-! ## Tamper scenario instances -/

/-- A fixed 32-byte DEK. -/
def dek0 : Bytes := List.replicate 32 7

/-- The bundle produced by encrypting `"secret"` under `dek0`. -/
def bundle0 : Record :=
  match (encryptField "email" (some "secret") dek0 G0).1 with
  | .ok (some r) => r
  | _ => []

/-- Flip the first ciphertext byte of a hex string. -/
def tamperHex (s : String) : String :=
  hexOfBytes (match bytesOfHex s with
    | some (b :: bs) => ((b + 1) % 256) :: bs
    | _ => [])

/-- `bundle0` with its ciphertext tampered and a stored plaintext sibling
field (`data["email"] = "stored"`). -/
def tamperedBundle : Record :=
  ("email", "stored") ::
    setField bundle0 "email_encrypted"
      (tamperHex ((getField bundle0 "email_encrypted").getD ""))

/-! ## Claims -/

/-- C4: for every field name, every non-empty string `v` and every 32-byte
DEK, decrypting the bundle produced by `encryptField` with the same DEK via
`decryptField` returns exactly `v`. -/
theorem C4_theorem (fieldName v : String) (dek : Bytes) (g : Rng)
    (hv : v ≠ "") (hdek : dek.length = 32) :
    ∃ bundle g', encryptField fieldName (some v) dek g = (.ok (some bundle), g') ∧
      decryptField fieldName bundle dek = some v :=
  ⟨encBundle fieldName v dek g, (randomBytes 16 g).2,
    encryptField_ok fieldName v dek g hv hdek,
    decryptField_encBundle fieldName v dek g hv hdek⟩

/-- Witness for C4 at a concrete field, value and DEK. -/
theorem C4_witness :
    ∃ bundle g', encryptField "email" (some "secret") dek0 G0 = (.ok (some bundle), g') ∧
      decryptField "email" bundle dek0 = some "secret" :=
  C4_theorem "email" "secret" dek0 G0 (by decide) (by decide)

/-- C2 counterexample: on a bundle whose ciphertext was tampered with,
`decryptField` does not fail hard — the authentication failure is caught and
the stored plaintext sibling field is silently returned. -/
theorem C2_counterexample :
    decryptAttempt "email" tamperedBundle dek0 = none ∧
    decryptField "email" tamperedBundle dek0 = some "stored" := by decide

/-- C2 (amended): when the `try` body of `decryptField` fails (tampered
ciphertext, nonce or tag, or a wrong key), the error is caught and the
function returns `data[fieldName] || null` — the stored original field
content when present, else `null` — instead of raising a `DecryptionError`. -/
theorem C2_theorem (fieldName : String) (data : Record) (dek : Bytes)
    (h1 : truthy (getField data (fieldName ++ "_encrypted")) = true)
    (h2 : decryptAttempt fieldName data dek = none) :
    decryptField fieldName data dek = jsOr (getField data fieldName) := by
  rw [decryptField, if_neg (by simp [h1]), h2]

/-- Witness for C2 at the tampered bundle. -/
theorem C2_witness :
    decryptField "email" tamperedBundle dek0 = jsOr (getField tamperedBundle "email") :=
  C2_theorem "email" tamperedBundle dek0 (by decide) (by decide)

/-- C8: an empty or absent value makes `encryptField` (both the service
method and the standalone utility) a no-op returning `null`, emitting no
ciphertext and consuming no randomness, for every DEK. -/
theorem C8_theorem (fieldName : String) (dek : Bytes) (g : Rng) (value : Option String)
    (h : value = none ∨ value = some "") :
    encryptField fieldName value dek g = (.ok none, g) ∧
    utilsEncryptField fieldName value dek g = (.ok none, g) := by
  rcases h with rfl | rfl <;> exact ⟨rfl, rfl⟩

/-- Witness for C8 at a concrete field and DEK. -/
theorem C8_witness :
    encryptField "email" (some "") dek0 G0 = (.ok none, G0) ∧
    utilsEncryptField "email" (some "") dek0 G0 = (.ok none, G0) :=
  C8_theorem "email" dek0 G0 (some "") (Or.inr rfl)

/-- C10: with no (or an empty) `<field>_encrypted` entry, `decryptField`
returns `null` without error, and the result does not depend on the
`_iv`/`_auth_tag` fields (overwriting them changes nothing). -/
theorem C10_theorem (fieldName : String) (data : Record) (dek : Bytes) (v1 v2 : String)
    (h : truthy (getField data (fieldName ++ "_encrypted")) = false) :
    decryptField fieldName data dek = none ∧
    decryptField fieldName
      (setField (setField data (fieldName ++ "_iv") v1) (fieldName ++ "_auth_tag") v2)
      dek = none := by
  constructor
  · rw [decryptField, if_pos (by simp [h])]
  · have hget : getField
        (setField (setField data (fieldName ++ "_iv") v1) (fieldName ++ "_auth_tag") v2)
        (fieldName ++ "_encrypted") = getField data (fieldName ++ "_encrypted") := by
      rw [getField_setField_other _ _ _ _ (append_ne_append fieldName (by decide)),
        getField_setField_other _ _ _ _ (append_ne_append fieldName (by decide))]
    rw [decryptField, if_pos (by simp [hget, h])]

/-- Witness for C10 at a record lacking the encrypted field. -/
theorem C10_witness :
    decryptField "email" [("username", "alice")] dek0 = none ∧
    decryptField "email"
      (setField (setField [("username", "alice")] ("email" ++ "_iv") "aa")
        ("email" ++ "_auth_tag") "bb") dek0 = none :=
  C10_theorem "email" [("username", "alice")] dek0 "aa" "bb" (by decide)

/-- C6: `KMSService.decryptDEK` returns the remote plaintext exactly when it
is 32 bytes long, and fails with `ValidationError(INVALID_DEK)` on any other
length. -/
theorem C6_theorem (w : World) (ct : Bytes) (kp : String) (ptx : Bytes)
    (hkp : kp ≠ "")
    (hremote : w.kmsDecrypt (jsJoinSlash ((jsSplitSlash kp).take 8)) ct = some ptx) :
    (ptx.length = 32 → kmsDecryptDEK w (some ct) (some kp) = .ok ptx) ∧
    (ptx.length ≠ 32 →
      kmsDecryptDEK w (some ct) (some kp) = .error (.validation ErrorCodes.INVALID_DEK)) := by
  constructor
  · intro h32
    rw [kmsDecryptDEK]
    simp only [if_neg hkp, hremote]
    rw [if_neg (by omega)]
  · intro h32
    rw [kmsDecryptDEK]
    simp only [if_neg hkp, hremote]
    rw [if_pos h32]

/-- A world whose remote decrypt returns a 32-byte plaintext. -/
def Wlen32 : World :=
  { kmsWrap := fun _ _ => none, kmsDecrypt := fun _ _ => some (List.replicate 32 1),
    getSecret := fun _ => none, createSecret := fun _ _ => none, projectId := "p" }

/-- A world whose remote decrypt returns a 31-byte plaintext. -/
def Wlen31 : World :=
  { kmsWrap := fun _ _ => none, kmsDecrypt := fun _ _ => some (List.replicate 31 1),
    getSecret := fun _ => none, createSecret := fun _ _ => none, projectId := "p" }

/-- Witness for C6: both the accepting and rejecting branches at a concrete
path and ciphertext. -/
theorem C6_witness :
    kmsDecryptDEK Wlen32 (some [0]) (some "a/b") = .ok (List.replicate 32 1) ∧
    kmsDecryptDEK Wlen31 (some [0]) (some "a/b") =
      .error (.validation ErrorCodes.INVALID_DEK) :=
  ⟨(C6_theorem Wlen32 [0] "a/b" (List.replicate 32 1) (by decide) rfl).1 rfl,
   (C6_theorem Wlen31 [0] "a/b" (List.replicate 31 1) (by decide) rfl).2 (by decide)⟩

/-- Entity key details carrying cached wrapped-DEK bytes (the result of the
scenario's first ABSENT-path resolution, as `checkKMS` would serve it from
the cache). -/
def ekd0 : EntityKeyDetails :=
  ⟨some "global", some "kr-alice", some "key-alice", some "secret-alice",
   some ((List.replicate 32 7).map fun b => (b + 101) % 256), some "1"⟩

/-- C3 counterexample: resolving with cached wrapped-DEK bytes succeeds while
making one remote KMS decrypt call — not zero as the claim states (the
Secret Manager is indeed skipped). -/
theorem C3_counterexample :
    (resolveDEKFromEntityKeyDetails W0 ekd0).1.isOk = true ∧
    (resolveDEKFromEntityKeyDetails W0 ekd0).2 = ⟨0, 1⟩ := by decide

/-- C3 (amended): the cached path (wrapped-DEK bytes present in the entity
key details) performs zero Secret Manager calls but still performs exactly
one remote KMS unwrap call per resolution. -/
theorem C3_theorem (w : World) (kd : EntityKeyDetails) (enc : Bytes)
    (h1 : keyDetailsComplete kd = true) (h2 : kd.encryptedDEK = some enc) :
    (resolveDEKFromEntityKeyDetails w kd).2 = ⟨0, 1⟩ := by
  simp [resolveDEKFromEntityKeyDetails, h1, h2]

/-- Witness for C3 at the concrete cached details. -/
theorem C3_witness : (resolveDEKFromEntityKeyDetails W0 ekd0).2 = ⟨0, 1⟩ :=
  C3_theorem W0 ekd0 ((List.replicate 32 7).map fun b => (b + 101) % 256)
    (by decide) (by decide)

instance exceptDecEq {ε α : Type} [DecidableEq ε] [DecidableEq α] :
    DecidableEq (Except ε α) := fun x y =>
  match x, y with
  | .ok a, .ok b => if h : a = b then isTrue (by rw [h]) else isFalse (by simp [h])
  | .error a, .error b => if h : a = b then isTrue (by rw [h]) else isFalse (by simp [h])
  | .ok _, .error _ => isFalse (by simp)
  | .error _, .ok _ => isFalse (by simp)

/-- The keys written by one `encryptField` call avoid any unrelated key. -/
theorem encBundle_keys (fieldName v : String) (dek : Bytes) (g : Rng) (k : String)
    (h1 : fieldName ++ "_encrypted" ≠ k) (h2 : fieldName ++ "_iv" ≠ k)
    (h3 : fieldName ++ "_auth_tag" ≠ k) :
    ∀ p ∈ encBundle fieldName v dek g, p.1 ≠ k := by
  intro p hp
  simp only [encBundle, List.mem_cons, List.not_mem_nil, or_false] at hp
  rcases hp with rfl | rfl | rfl
  · exact h1
  · exact h2
  · exact h3

/-- C9: for a configured model, `decryptObject` with absent key details (no
`entityKeyDetailsResult` or no `keyDetails` in it) returns the input record
unchanged with an undefined `encryptedDEK` and raises no error. -/
theorem C9_theorem (w : World) (cfg : EncryptionConfig) (mn : String) (mc : ModelCfg)
    (data : Record) (ekdr : Option EntityKeyDetailsResult)
    (hmn : mn ≠ "") (hcfg : configLookup cfg mn = some mc)
    (hkd : keyDetailsOf ekdr = none) :
    decryptObject w cfg (some mn) (some data) ekdr = .ok (data, none) := by
  have ht : truthy (some mn) = true := by simpa [truthy] using hmn
  simp [decryptObject, ht, hcfg, hkd]

/-- Witness for C9 at the concrete scenario record (both absence shapes). -/
theorem C9_witness :
    decryptObject W0 userConfig (some "User") (some aliceRecord) none =
      .ok (aliceRecord, none) ∧
    decryptObject W0 userConfig (some "User") (some aliceRecord) (some ⟨none⟩) =
      .ok (aliceRecord, none) :=
  ⟨C9_theorem W0 userConfig "User" userModelCfg aliceRecord none
      (by decide) (by decide) rfl,
   C9_theorem W0 userConfig "User" userModelCfg aliceRecord (some ⟨none⟩)
      (by decide) (by decide) rfl⟩

/-- C5 counterexample: a single configured field whose encryption fails (here
`createCipheriv` rejecting the empty DEK) is not caught-and-passed-through:
`handleFieldEncryption` aborts with `EncryptionError(FIELD_ENCRYPTION_ERROR)`,
so the whole `encryptObject` call fails. -/
theorem C5_counterexample :
    (handleFieldEncryption userModelCfg aliceRecord [] G0).1 =
      .error (.encryption ErrorCodes.FIELD_ENCRYPTION_ERROR) := by decide

/-- C5 (amended): the pass-through-on-field-failure policy holds only for
decryption — once the DEK resolves, `decryptObject` never fails because of a
field (`decryptField` swallows every per-field error) — while a single
field's encryption failure aborts the whole operation with
`EncryptionError(FIELD_ENCRYPTION_ERROR)`. -/
theorem C5_theorem :
    (∀ (w : World) (cfg : EncryptionConfig) (mn : String) (mc : ModelCfg)
        (data : Record) (kd : EntityKeyDetails),
      mn ≠ "" → configLookup cfg mn = some mc → keyDetailsComplete kd = true →
      (resolveDEKFromEntityKeyDetails w kd).1.isOk = true →
      (decryptObject w cfg (some mn) (some data) (some ⟨some kd⟩)).isOk = true) ∧
    (∀ (f : FieldCfg) (rest : List FieldCfg) (data acc : Record) (g : Rng) (dek : Bytes),
      truthy (getField data f.key) = true → dek.length ≠ 32 →
      (encryptFieldsLoop dek (f :: rest) data acc g).1 =
        .error (.encryption ErrorCodes.FIELD_ENCRYPTION_ERROR)) := by
  constructor
  · intro w cfg mn mc data kd hmn hcfg hcomp hok
    have ht : truthy (some mn) = true := by simpa [truthy] using hmn
    rcases hre : resolveDEKFromEntityKeyDetails w kd with ⟨res, log⟩
    cases res with
    | error e => rw [hre] at hok; simp [Except.isOk, Except.toBool] at hok
    | ok p =>
      obtain ⟨dek, md⟩ := p
      simp [decryptObject, ht, hcfg, keyDetailsOf, hcomp, hre, Except.isOk, Except.toBool]
  · intro f rest data acc g dek htr hdek
    obtain ⟨v, hv, hvne⟩ : ∃ v, getField data f.key = some v ∧ v ≠ "" := by
      cases hg : getField data f.key with
      | none => rw [hg] at htr; simp [truthy] at htr
      | some v => exact ⟨v, rfl, by rw [hg] at htr; simpa [truthy] using htr⟩
    have htv : truthy (some v) = true := by simpa [truthy] using hvne
    rw [encryptFieldsLoop, hv]
    simp only [htv, if_true]
    rw [encryptField, if_neg (by simp [htv]), if_pos hdek]

/-- Witness for C5: the decryption side succeeds end-to-end on the concrete
cached details, and the encryption side aborts on the concrete record with
an invalid DEK. -/
theorem C5_witness :
    (decryptObject W0 userConfig (some "User") (some aliceRecord)
        (some ⟨some ekd0⟩)).isOk = true ∧
    (encryptFieldsLoop [] ([⟨"email", true⟩, ⟨"password", false⟩] : List FieldCfg)
        aliceRecord aliceRecord G0).1 =
      .error (.encryption ErrorCodes.FIELD_ENCRYPTION_ERROR) :=
  ⟨C5_theorem.1 W0 userConfig "User" userModelCfg aliceRecord ekd0
      (by decide) (by decide) (by decide) (by decide),
   C5_theorem.2 ⟨"email", true⟩ [⟨"password", false⟩] aliceRecord aliceRecord G0 []
      (by decide) (by decide)⟩

/-- The `email_hash` field present after running the `User` encryption loop,
if the run succeeds. -/
def emailHashAfter (data : Record) (dek : Bytes) (g : Rng) : Option String :=
  match handleFieldEncryption userModelCfg data dek g with
  | (.ok r, _) => getField r "email_hash"
  | (.error _, _) => none

theorem emailHash_after_passwordStep (data acc : Record) (dek : Bytes) (g : Rng)
    (hdek : dek.length = 32) :
    ∃ acc' g',
      encryptFieldsLoop dek ([⟨"password", false⟩] : List FieldCfg) data acc g =
        (.ok acc', g') ∧
      getField acc' "email_hash" = getField acc "email_hash" := by
  cases hpw : truthy (getField data "password") with
  | false => exact ⟨acc, g, by simp [encryptFieldsLoop, hpw], rfl⟩
  | true =>
    obtain ⟨w, hw, hwne⟩ : ∃ w, getField data "password" = some w ∧ w ≠ "" := by
      cases hg : getField data "password" with
      | none => rw [hg] at hpw; simp [truthy] at hpw
      | some w => exact ⟨w, rfl, by rw [hg] at hpw; simpa [truthy] using hpw⟩
    refine ⟨assignAll acc (encBundle "password" w dek g), (randomBytes 16 g).2, ?_, ?_⟩
    · rw [encryptFieldsLoop, hw]
      have htw : truthy (some w) = true := by simpa [truthy] using hwne
      simp only [htw, if_true]
      rw [encryptField_ok "password" w dek g hwne hdek]
      simp [encryptFieldsLoop]
    · exact getField_assignAll_notMem _ _ _
        (encBundle_keys "password" w dek g "email_hash" (by decide) (by decide) (by decide))

/-- C7: `createHash` is deterministic, and the `email_hash` produced by the
`User` encryption loop depends only on the plaintext email — it equals
`createHash v` for any DEK and any randomness, hence two records with the
same email get equal hashes regardless of their DEKs and ciphertexts. -/
theorem C7_theorem :
    (∀ x, createHash x = createHash x) ∧
    ∀ (data : Record) (dek : Bytes) (g : Rng) (v : String),
      v ≠ "" → getField data "email" = some v → dek.length = 32 →
      emailHashAfter data dek g = some (createHash v) := by
  refine ⟨fun _ => rfl, ?_⟩
  intro data dek g v hv hget hdek
  have htv : truthy (some v) = true := by simpa [truthy] using hv
  have hstep1 :
      encryptFieldsLoop dek ([⟨"email", true⟩, ⟨"password", false⟩] : List FieldCfg)
          data data g =
        encryptFieldsLoop dek [⟨"password", false⟩] data
          (assignAll (setField data "email_hash" (createHash v)) (encBundle "email" v dek g))
          ((randomBytes 16 g).2) := by
    rw [encryptFieldsLoop, hget]
    simp only [htv, if_true]
    rw [encryptField_ok "email" v dek g hv hdek]
    simp [hget]
  obtain ⟨acc', g', hloop, hpres⟩ := emailHash_after_passwordStep data
    (assignAll (setField data "email_hash" (createHash v)) (encBundle "email" v dek g))
    dek ((randomBytes 16 g).2) hdek
  have hfinal : handleFieldEncryption userModelCfg data dek g = (.ok acc', g') := by
    rw [handleFieldEncryption]
    show encryptFieldsLoop dek ([⟨"email", true⟩, ⟨"password", false⟩] : List FieldCfg)
        data data g = _
    rw [hstep1, hloop]
  rw [emailHashAfter, hfinal]
  show getField acc' "email_hash" = some (createHash v)
  rw [hpres, getField_assignAll_notMem _ _ _
    (encBundle_keys "email" v dek g "email_hash" (by decide) (by decide) (by decide)),
    getField_setField_self]

/-- Witness for C7: two concrete records with the same email but different
DEKs and randomness receive the same `email_hash`. -/
theorem C7_witness :
    emailHashAfter aliceRecord dek0 G0 = some (createHash "a@x.com") ∧
    emailHashAfter [("email", "a@x.com")] (List.replicate 32 9) ⟨fun n => n % 7, 3⟩ =
      some (createHash "a@x.com") :=
  ⟨C7_theorem.2 aliceRecord dek0 G0 "a@x.com" (by decide) (by decide) (by decide),
   C7_theorem.2 [("email", "a@x.com")] (List.replicate 32 9) ⟨fun n => n % 7, 3⟩ "a@x.com"
      (by decide) (by decide) (by decide)⟩

/-- The outcome of the scenario's `encryptObject` call (ABSENT key context). -/
def aliceEncryptResult : Except EncError EncryptedObjectResult :=
  (encryptObject W0 userConfig G0 (some "User") (some aliceRecord) "alice" none).1

/-- The scenario's encrypted record and key metadata. -/
def aliceEnc : EncryptedObjectResult :=
  match aliceEncryptResult with
  | .ok r => r
  | .error _ => ⟨[], ⟨none, none, none, none, none, none⟩⟩

/-- The outcome of feeding the encrypted record plus its key metadata back
into `decryptObject`. -/
def aliceDecryptResult : Except EncError (Record × Option Bytes) :=
  decryptObject W0 userConfig (some "User") (some aliceEnc.encryptedData)
    (some ⟨some (metadataAsDetails aliceEnc.keyMetadata)⟩)

/-- The scenario's decrypted record. -/
def aliceDec : Record :=
  match aliceDecryptResult with
  | .ok (r, _) => r
  | .error _ => []

/-- C1 counterexample: the encrypted record still carries the plaintext
`email` and `password` under their original field names — the configured
fields are not replaced, so plaintext does remain. -/
theorem C1_counterexample :
    aliceEncryptResult = .ok aliceEnc ∧
    getField aliceEnc.encryptedData "email" = some "a@x.com" ∧
    getField aliceEnc.encryptedData "password" = some "p" := by decide

/-- C1 (amended): the end-to-end scenario succeeds with the hex
ciphertext+nonce+tag triples *added alongside* the plaintext fields (the
original field names keep the plaintext), `email_hash = createHash` of the
plaintext email, non-null key metadata, and feeding the encrypted record
plus metadata into `decryptObject` recovers the original values — the
decrypted plaintext is written under the `_encrypted` field names while the
original field names still carry it, and the `_iv`/`_auth_tag` side fields
are removed. -/
theorem C1_theorem :
    aliceEncryptResult = .ok aliceEnc ∧
    ((getField aliceEnc.encryptedData "email_encrypted").getD "" ≠ "a@x.com" ∧
      (bytesOfHex ((getField aliceEnc.encryptedData "email_encrypted").getD "")).isSome = true ∧
      (bytesOfHex ((getField aliceEnc.encryptedData "email_iv").getD "")).isSome = true ∧
      (bytesOfHex ((getField aliceEnc.encryptedData "email_auth_tag").getD "")).isSome = true ∧
      (getField aliceEnc.encryptedData "password_encrypted").getD "" ≠ "p" ∧
      (bytesOfHex ((getField aliceEnc.encryptedData "password_encrypted").getD "")).isSome = true ∧
      (bytesOfHex ((getField aliceEnc.encryptedData "password_iv").getD "")).isSome = true ∧
      (bytesOfHex ((getField aliceEnc.encryptedData "password_auth_tag").getD "")).isSome = true) ∧
    getField aliceEnc.encryptedData "email_hash" = some (createHash "a@x.com") ∧
    (aliceEnc.keyMetadata.locationId.isSome = true ∧
      aliceEnc.keyMetadata.keyRingId.isSome = true ∧
      aliceEnc.keyMetadata.keyId.isSome = true ∧
      aliceEnc.keyMetadata.secretId.isSome = true) ∧
    aliceDecryptResult = .ok (aliceDec, aliceEnc.keyMetadata.encryptedDEK) ∧
    (getField aliceDec "email_encrypted" = some "a@x.com" ∧
      getField aliceDec "password_encrypted" = some "p" ∧
      getField aliceDec "email" = some "a@x.com" ∧
      getField aliceDec "password" = some "p" ∧
      getField aliceDec "email_iv" = none ∧
      getField aliceDec "email_auth_tag" = none ∧
      getField aliceDec "password_iv" = none ∧
      getField aliceDec "password_auth_tag" = none) := by decide

end EncDec
